import Mathlib

/-!
# detect_coreapp.go : detection of a .NET Core ("net5.0") project

A shallow embedding of `internal/assets/dockerfiles/coreapp/detect_coreapp.go`.

* Go strings are modelled as `List Char` (`GoString`).  The program only ever inspects the
  ASCII characters `.`, `/`, `;`, the decimal digits and two literal scheme prefixes, so
  for valid UTF-8 the byte view and the character view agree.
* Go `int` is modelled as `Int`; the only place where the width matters is `strconv.Atoi`,
  which saturates at the 64-bit bounds.
* The operating system and the standard library decoders are parameters, collected in `Env`.
* A run-time panic is an explicit `Fault`.
* `logrus` output goes to standard error and is not modelled; standard output is.
-/

namespace CoreApp

/-- A Go string. -/
abbrev GoString := List Char

deriving instance DecidableEq for Except

/-- A Go `error` value: its message, and whether `os.IsNotExist` holds of it. -/
structure GoError where
  msg : GoString
  notExist : Bool
deriving DecidableEq, Repr

/-- The run-time panics the program can raise. -/
inductive Fault where
  | nilDereference
  | interfaceConversion
  | indexOutOfRange
deriving DecidableEq, Repr

/-- The constant `csProj`. -/
def csProj : GoString := ".csproj".toList

/-- The constant `DotNETCore5`. -/
def DotNETCore5 : GoString := "net5.0".toList

/-- The struct `ConfigInfo`. -/
structure ConfigInfo where
  version : GoString
  ports : List Int
  httpPort : Int
  httpsPort : Int
  appName : GoString
  path : GoString
deriving DecidableEq, Repr

/-- The zero value of `ConfigInfo` (`var configInfo ConfigInfo`). -/
def ConfigInfo.zero : ConfigInfo :=
  { version := [], ports := [], httpPort := 0, httpsPort := 0, appName := [], path := [] }

/-- A decoded JSON value held in an `interface{}`: `nil`, `bool`, `float64` (kept as its
source text), `string`, `[]interface{}` or `map[string]interface{}` (an association list,
looked up by first match). -/
inductive GoValue where
  | null
  | bool (b : Bool)
  | number (text : GoString)
  | string (s : GoString)
  | slice (xs : List GoValue)
  | map (m : List (GoString × GoValue))

/-- Indexing a Go map: a missing key yields the zero value of `interface{}`, i.e. `nil`. -/
def mapIndex (m : List (GoString × GoValue)) (key : GoString) : GoValue :=
  match m.lookup key with
  | some v => v
  | none => GoValue.null

/-- The struct `LaunchSettings`; a nil `Profiles` map is the empty association list. -/
structure LaunchSettings where
  Profiles : List (GoString × GoValue)

/-- The struct `PropertyGroup` (the `XMLName` field is not consulted by the program). -/
structure PropertyGroup where
  Condition : GoString
  TargetFramework : GoString
deriving DecidableEq, Repr

/-- The struct `ConfigurationDotNETCore`. -/
structure ConfigurationDotNETCore where
  Sdk : GoString
  PropertyGroup : PropertyGroup
deriving DecidableEq, Repr

/-- The zero value `ConfigurationDotNETCore{}`. -/
def ConfigurationDotNETCore.zero : ConfigurationDotNETCore :=
  { Sdk := [], PropertyGroup := { Condition := [], TargetFramework := [] } }

/-- The part of `os.FileInfo` the program looks at. -/
structure FileInfo where
  IsDir : Bool
deriving DecidableEq, Repr

/-- An open `*os.File`, identified with the bytes `ioutil.ReadAll` obtains from it. -/
structure File where
  data : GoString
deriving DecidableEq, Repr

/-- One call `filepath.Walk` makes to its callback: the path, `info.IsDir()` and the error
passed in.  `isDir` is only consulted when `err` is `nil`, where `info` is never `nil`. -/
structure WalkEntry where
  path : GoString
  isDir : Bool
  err : Option GoError
deriving DecidableEq, Repr

/-- The operating system and the library decoders the program calls.

* `Stat` is `os.Stat`.
* `Walk root` is the sequence of callback invocations `filepath.Walk root` makes for a
  callback that keeps returning `nil`.
* `Open` is `os.Open`.
* `Rel` is `filepath.Rel` (result and error).
* `xmlUnmarshal data v` and `jsonUnmarshal data v` give the state of the destination `v`
  after `Unmarshal(data, &v)` together with the returned error. -/
structure Env where
  Stat : GoString → Except GoError FileInfo
  Walk : GoString → List WalkEntry
  Open : GoString → Except GoError File
  Rel : GoString → GoString → GoString × Option GoError
  xmlUnmarshal : GoString → ConfigurationDotNETCore → ConfigurationDotNETCore × Option GoError
  jsonUnmarshal : GoString → LaunchSettings → LaunchSettings × Option GoError

/-! ## Library functions with a fixed meaning -/

/-- The function `os.IsPathSeparator` on a Unix system. -/
def IsPathSeparator (c : Char) : Bool := c == '/'

/-- The loop of `filepath.Ext`, run over the reversed path: `acc` is `path[i+1:]`. -/
def extScan : GoString → GoString → GoString
  | [], _ => []
  | c :: rest, acc =>
    if IsPathSeparator c then []
    else if c = '.' then c :: acc
    else extScan rest (c :: acc)

/-- The function `filepath.Ext`: the suffix beginning at the final dot in the final element of the path;
empty if there is no dot. -/
def Ext (path : GoString) : GoString := extScan path.reverse []

/-- The function `filepath.Base` on a Unix system (no volume names). -/
def Base (path : GoString) : GoString :=
  if path = [] then ['.']
  else
    let stripped := (path.reverse.dropWhile IsPathSeparator).reverse
    let last := (stripped.reverse.takeWhile (fun c => !IsPathSeparator c)).reverse
    if last = [] then ['/'] else last

/-- The function `strings.TrimSuffix`. -/
def TrimSuffix (s suffix : GoString) : GoString :=
  if suffix.isSuffixOf s then s.take (s.length - suffix.length) else s

/-- The function `ioutil.ReadAll` on the handle `os.Open` returned; a nil handle yields no bytes. -/
def ReadAll : Except GoError File → GoString
  | .ok f => f.data
  | .error _ => []

/-- The call `fmt.Println(err)`, appended to the standard output written so far. -/
def Println (out : GoString) (err : GoError) : GoString := out ++ err.msg ++ ['\n']

/-- The statement `if err != nil { fmt.Println(err) }`. -/
def printIfErr (out : GoString) : Option GoError → GoString
  | some err => Println out err
  | none => out

/-! ## GetFilesByExt -/

/-- The callback `GetFilesByExt` passes to `filepath.Walk`: the new value of `files` and the
returned error. -/
def walkFn (inputPath : GoString) (exts : List GoString) (files : List GoString)
    (e : WalkEntry) : List GoString × Option GoError :=
  if e.err.isSome ∧ e.path = inputPath then (files, e.err)
  else if e.err.isSome then (files, none)
  else if e.isDir then (files, none)
  else
    let fext := Ext e.path
    (exts.foldl (fun fs ext => if fext = ext then fs ++ [e.path] else fs) files, none)

/-- The driver `filepath.Walk`: calls the callback on each entry in turn and stops at the
first non-nil error it returns. -/
def filepathWalk (fn : List GoString → WalkEntry → List GoString × Option GoError) :
    List WalkEntry → List GoString → List GoString × Option GoError
  | [], files => (files, none)
  | e :: rest, files =>
    match fn files e with
    | (files1, some err) => (files1, some err)
    | (files1, none) => filepathWalk fn rest files1

/-- The function `GetFilesByExt`.  A `Stat` error other than "not exist" leaves `info` nil
and the call `info.IsDir()` panics. -/
def GetFilesByExt (env : Env) (inputPath : GoString) (exts : List GoString) :
    Except Fault (List GoString × Option GoError) :=
  match env.Stat inputPath with
  | .error err =>
    if err.notExist then .ok ([], some err) else .error Fault.nilDereference
  | .ok _ =>
    match filepathWalk (walkFn inputPath exts) (env.Walk inputPath) [] with
    | (files, some err) => .ok (files, some err)
    | (files, none) => .ok (files, none)

/-! ## strconv, regexp and strings -/

/-- The value of a run of decimal digits, accumulated as `strconv` does. -/
def decimalValue (digits : GoString) : Nat :=
  digits.foldl (fun n ch => n * 10 + (ch.toNat - 48)) 0

/-- The function `strconv.Atoi` on a 64-bit platform: the value and whether the error is non-nil.
An optional sign is followed by a non-empty run of decimal digits; a syntax error yields 0
and a value out of range yields the nearest bound. -/
def Atoi (s : GoString) : Int × Bool :=
  let neg := s.head? = some '-'
  let digits := if s.head? = some '-' ∨ s.head? = some '+' then s.tail else s
  if digits = [] ∨ ¬ (digits.all Char.isDigit = true) then (0, true)
  else
    let v := decimalValue digits
    if neg then
      if v > 2 ^ 63 then (-(2 ^ 63 : Int), true) else (-(v : Int), false)
    else
      if v ≥ 2 ^ 63 then ((2 ^ 63 : Int) - 1, true) else ((v : Int), false)

/-- The call `regexp.MustCompile("[0-9]+").FindAllString(s, 1)`: the leftmost, longest run of
decimal digits, if there is one. -/
def findDigits (s : GoString) : List GoString :=
  match s.dropWhile (fun c => !c.isDigit) with
  | [] => []
  | d :: rest => [(d :: rest).takeWhile Char.isDigit]

/-- The call `regexp.MustCompile("^" + lit).FindAllString(s, -1)` for a literal `lit`: the anchor
only matches at the start of the text. -/
def findAnchored (lit s : GoString) : List GoString :=
  if lit.isPrefixOf s then [lit] else []

/-- The call `strings.Split(s, string(sep))` for a one-character separator. -/
def Split (sep : Char) : GoString → List GoString
  | [] => [[]]
  | c :: rest =>
    if c = sep then [] :: Split sep rest
    else
      match Split sep rest with
      | piece :: pieces => (c :: piece) :: pieces
      | [] => [[c]]

/-- The `fmt` rendering of an `int` under `%d` and `%v`. -/
def fmtD : Int → GoString
  | Int.ofNat k => Nat.toDigits 10 k
  | Int.negSucc k => '-' :: Nat.toDigits 10 (k + 1)

/-! ## DetectDotNETCore -/

/-- The literal `"launchSettings.json"`. -/
def launchSettingsJson : GoString := "launchSettings.json".toList

/-- The literal `"applicationUrl"`. -/
def applicationUrlKey : GoString := "applicationUrl".toList

/-- The literal `".json"`. -/
def jsonExt : GoString := ".json".toList

/-- The literal `"https://"`. -/
def httpsScheme : GoString := "https://".toList

/-- The literal `"http://"`. -/
def httpScheme : GoString := "http://".toList

/-- The body of the first loop of `DetectDotNETCore`, for one descriptor file; the state is
the standard output written so far and `configInfo`. -/
def csprojStep (env : Env) (sourcePath : GoString) (s : GoString × ConfigInfo)
    (csprojFile : GoString) : GoString × ConfigInfo :=
  let xmlFile := env.Open csprojFile
  let out1 := printIfErr s.1 (match xmlFile with | .error err => some err | .ok _ => none)
  let byteValue := ReadAll xmlFile
  let configuration := (env.xmlUnmarshal byteValue ConfigurationDotNETCore.zero).1
  let rel := env.Rel sourcePath csprojFile
  let out2 := printIfErr out1 rel.2
  (out2, { s.2 with
    version := configuration.PropertyGroup.TargetFramework
    path := rel.1
    appName := TrimSuffix (Base csprojFile) (Ext csprojFile) })

/-- One of the two `if` statements in the loop over `Urls`: when `url` starts with `scheme`,
the first digit match is indexed (a panic if there is none), converted and stored by `set`. -/
def schemeStep (scheme : GoString) (set : ConfigInfo → Int → ConfigInfo) (url : GoString)
    (c : ConfigInfo) : Except Fault ConfigInfo :=
  if (findAnchored scheme url).length ≠ 0 ∧ (findAnchored scheme url)[0]? = some scheme then
    match (findDigits url)[0]? with
    | none => .error Fault.indexOutOfRange
    | some digits => .ok (set c (Atoi digits).1)
  else .ok c

/-- The body of the loop over `Urls`. -/
def urlStep (c : ConfigInfo) (url : GoString) : Except Fault ConfigInfo :=
  match schemeStep httpsScheme (fun c port => { c with httpsPort := port }) url c with
  | .error f => .error f
  | .ok c1 => schemeStep httpScheme (fun c port => { c with httpPort := port }) url c1

/-- The loop `for _, url := range Urls`. -/
def urlLoop : List GoString → ConfigInfo → Except Fault ConfigInfo
  | [], c => .ok c
  | url :: rest, c =>
    match urlStep c url with
    | .error f => .error f
    | .ok c1 => urlLoop rest c1

/-- The block guarded by `launchSettings.Profiles[configInfo.appName] != nil`: two unchecked
type assertions, the loop over the URLs and the append of `httpPort`. -/
def processProfile (profile : GoValue) (c : ConfigInfo) : Except Fault ConfigInfo :=
  match profile with
  | GoValue.map profiles =>
    match mapIndex profiles applicationUrlKey with
    | GoValue.string applicationUrls =>
      match urlLoop (Split ';' applicationUrls) c with
      | .error f => .error f
      | .ok c1 => .ok { c1 with ports := c1.ports ++ [c1.httpPort] }
    | _ => .error Fault.interfaceConversion
  | _ => .error Fault.interfaceConversion

/-- The decoded `launchSettings` of a file: `json.Unmarshal` into `LaunchSettings{}`. -/
def readLaunchSettings (env : Env) (jsonFile : GoString) : LaunchSettings :=
  (env.jsonUnmarshal (ReadAll (env.Open jsonFile)) { Profiles := [] }).1

/-- The test `v != nil` on an `interface{}`. -/
def GoValue.isNil : GoValue → Bool
  | GoValue.null => true
  | _ => false

/-- The body of the second loop of `DetectDotNETCore`, for one `.json` file. -/
def launchStep (env : Env) (s : GoString × ConfigInfo) (jsonFile : GoString) :
    GoString × Except Fault ConfigInfo :=
  if Base jsonFile = launchSettingsJson then
    let out1 := printIfErr s.1
      (match env.Open jsonFile with | .error err => some err | .ok _ => none)
    let launchSettings := readLaunchSettings env jsonFile
    if (mapIndex launchSettings.Profiles s.2.appName).isNil = false then
      (out1, processProfile (mapIndex launchSettings.Profiles s.2.appName) s.2)
    else (out1, .ok s.2)
  else (s.1, .ok s.2)

/-- The loop `for _, jsonFile := range jsonFiles`; a panic ends it. -/
def launchLoop (env : Env) : List GoString → GoString × ConfigInfo →
    GoString × Except Fault ConfigInfo
  | [], s => (s.1, .ok s.2)
  | jsonFile :: rest, s =>
    match launchStep env s jsonFile with
    | (out, .error f) => (out, .error f)
    | (out, .ok c) => launchLoop env rest (out, c)

/-- The state after the first loop of `DetectDotNETCore` over the given descriptor files. -/
def csprojLoop (env : Env) (sourcePath : GoString) (csprojFiles : List GoString)
    (s : GoString × ConfigInfo) : GoString × ConfigInfo :=
  csprojFiles.foldl (csprojStep env sourcePath) s

/-- The function `DetectDotNETCore`: the standard output it wrote, and either a panic or
the pair it returns. -/
def DetectDotNETCore (env : Env) (sourcePath : GoString) :
    GoString × Except Fault (Bool × ConfigInfo) :=
  match GetFilesByExt env sourcePath [csProj] with
  | .error f => ([], .error f)
  | .ok (csprojFiles, err) =>
    let s := csprojLoop env sourcePath csprojFiles (printIfErr [] err, ConfigInfo.zero)
    if s.2.version = DotNETCore5 then
      match GetFilesByExt env sourcePath [jsonExt] with
      | .error f => (s.1, .error f)
      | .ok (jsonFiles, err1) =>
        match launchLoop env jsonFiles (printIfErr s.1 err1, s.2) with
        | (out, .error f) => (out, .error f)
        | (out, .ok c) => (out, .ok (true, c))
    else (s.1, .ok (false, s.2))

/-! ## main -/

/-- The loop of `main` over `configInfo.ports`: `i` is the index of the head of the
remaining ports, `n` is `len(configInfo.ports)`. -/
def printPorts (n : Nat) : Nat → List Int → GoString → GoString
  | _, [], out => out
  | i, port :: rest, out =>
    let out1 := out ++ fmtD port
    printPorts n (i + 1) rest (if (i : Int) ≠ (n : Int) - 1 then out1 ++ [','] else out1)

/-- The three `Printf` stages of the success branch of `main`. -/
def printResult (out : GoString) (configInfo : ConfigInfo) : GoString :=
  let out1 := out ++ "\x7b\"csprojPath\":  \"".toList ++ configInfo.path ++ "\", \"ports\": [".toList
  let out2 := printPorts configInfo.ports.length 0 configInfo.ports out1
  out2 ++ "], \"httpPort\": ".toList ++ fmtD configInfo.httpPort ++ ", \"appName\": \"".toList
    ++ configInfo.appName ++ "\"\x7d\n".toList

/-- How the process ends: its standard output and either a panic or the exit status. -/
structure Process where
  stdout : GoString
  status : Except Fault Nat
deriving DecidableEq

/-- The function `main`, given `os.Args`. -/
def main (env : Env) (Args : List GoString) : Process :=
  if Args.length < 2 then { stdout := [], status := .ok 0 }
  else
    match DetectDotNETCore env (Args.getD 1 []) with
    | (out, .error f) => { stdout := out, status := .error f }
    | (out, .ok (isDotNETCore, configInfo)) =>
      if isDotNETCore then { stdout := printResult out configInfo, status := .ok 0 }
      else { stdout := out, status := .ok 1 }

/-- The files selected from a list of walk entries: the non-directories whose extension is
one of `exts`. -/
def selected (exts : List GoString) (entries : List WalkEntry) : List GoString :=
  (entries.filter (fun e => !e.isDir && decide (Ext e.path ∈ exts))).map (fun e => e.path)

/-! ## The specification's side -/

/-- Strings joined by `,`, with no trailing comma. -/
def joinComma : List GoString → GoString
  | [] => []
  | [x] => x
  | x :: y :: rest => x ++ ',' :: joinComma (y :: rest)

/-- The line the specification gives for a successful detection, newline included. -/
def specLine (path : GoString) (ports : List Int) (httpPort : Int) (appName : GoString) :
    GoString :=
  "\x7b\"csprojPath\":  \"".toList ++ path ++ "\", \"ports\": [".toList
    ++ joinComma (ports.map fmtD) ++ "], \"httpPort\": ".toList ++ fmtD httpPort
    ++ ", \"appName\": \"".toList ++ appName ++ "\"\x7d".toList ++ ['\n']

/-- A `.json` file that contributes a port: its base name is `launchSettings.json` and its
profiles mapping has a non-null entry under `appName`. -/
def contributes (env : Env) (appName : GoString) (jsonFile : GoString) : Bool :=
  decide (Base jsonFile = launchSettingsJson)
    && !(mapIndex (readLaunchSettings env jsonFile).Profiles appName).isNil

/-- The ports the specification expects from the enumerated `.json` files: each contributing
file yields the value `httpPort` holds once that file's URLs have been processed. -/
def specPorts (env : Env) : List GoString → ConfigInfo → List Int
  | [], _ => []
  | jsonFile :: rest, c =>
    if contributes env c.appName jsonFile then
      match processProfile (mapIndex (readLaunchSettings env jsonFile).Profiles c.appName) c with
      | .ok c1 => c1.httpPort :: specPorts env rest c1
      | .error _ => []
    else specPorts env rest c

/-! ## Concrete source trees -/

/-- The scanned root of the examples. -/
def rootDir : GoString := "/src".toList

/-- A project descriptor targeting `net5.0`. -/
def csprojNet5 : GoString :=
  "<Project Sdk=\"Microsoft.NET.Sdk.Web\"><PropertyGroup><TargetFramework>net5.0</TargetFramework></PropertyGroup></Project>".toList

/-- A project descriptor targeting `netcoreapp3.1`. -/
def csprojNet31 : GoString :=
  "<Project Sdk=\"Microsoft.NET.Sdk.Web\"><PropertyGroup><TargetFramework>netcoreapp3.1</TargetFramework></PropertyGroup></Project>".toList

/-- A truncated project descriptor, which is not well-formed XML. -/
def csprojBroken : GoString := "<Project Sdk=".toList

/-- Launch settings with the profile `MyApp` of the specification's example. -/
def launchGood : GoString :=
  "\x7b\"profiles\": \x7b\"MyApp\": \x7b\"commandName\": \"Project\", \"applicationUrl\": \"https://MyApp:5001;http://MyApp:5000\"\x7d\x7d\x7d".toList

/-- Launch settings whose profile `MyApp` has no `applicationUrl`. -/
def launchNoUrl : GoString :=
  "\x7b\"profiles\": \x7b\"MyApp\": \x7b\"commandName\": \"Project\"\x7d\x7d\x7d".toList

/-- Launch settings whose profile `MyApp` names a URL without a port. -/
def launchNoPort : GoString :=
  "\x7b\"profiles\": \x7b\"MyApp\": \x7b\"applicationUrl\": \"http://localhost\"\x7d\x7d\x7d".toList

/-- Launch settings with only an `IIS Express` profile. -/
def launchOther : GoString :=
  "\x7b\"profiles\": \x7b\"IIS Express\": \x7b\"commandName\": \"IISExpress\"\x7d\x7d\x7d".toList

/-- The error `demoXml` reports for a descriptor that is not well-formed. -/
def xmlSyntaxError : GoError :=
  { msg := "XML syntax error on line 1: unexpected EOF".toList, notExist := false }

/-- What `xml.Unmarshal` does on the example descriptors. -/
def demoXml (data : GoString) (v : ConfigurationDotNETCore) :
    ConfigurationDotNETCore × Option GoError :=
  if data = csprojNet5 then
    ({ Sdk := "Microsoft.NET.Sdk.Web".toList,
       PropertyGroup := { Condition := [], TargetFramework := "net5.0".toList } }, none)
  else if data = csprojNet31 then
    ({ Sdk := "Microsoft.NET.Sdk.Web".toList,
       PropertyGroup := { Condition := [], TargetFramework := "netcoreapp3.1".toList } }, none)
  else (v, some xmlSyntaxError)

/-- What `json.Unmarshal` does on the example launch settings. -/
def demoJson (data : GoString) (v : LaunchSettings) : LaunchSettings × Option GoError :=
  if data = launchGood then
    ({ Profiles := [("MyApp".toList, GoValue.map
        [("commandName".toList, GoValue.string "Project".toList),
         ("applicationUrl".toList,
           GoValue.string "https://MyApp:5001;http://MyApp:5000".toList)])] }, none)
  else if data = launchNoUrl then
    ({ Profiles := [("MyApp".toList, GoValue.map
        [("commandName".toList, GoValue.string "Project".toList)])] }, none)
  else if data = launchNoPort then
    ({ Profiles := [("MyApp".toList, GoValue.map
        [("applicationUrl".toList, GoValue.string "http://localhost".toList)])] }, none)
  else if data = launchOther then
    ({ Profiles := [("IIS Express".toList, GoValue.map
        [("commandName".toList, GoValue.string "IISExpress".toList)])] }, none)
  else (v, some { msg := "unexpected end of JSON input".toList, notExist := false })

/-- What `filepath.Rel` does for a target below the base directory. -/
def demoRel (basepath targpath : GoString) : GoString × Option GoError :=
  if (basepath ++ ['/']).isPrefixOf targpath then (targpath.drop (basepath.length + 1), none)
  else ([], some { msg := "Rel: can't make the path relative".toList, notExist := false })

/-- The error of a path that does not exist, for the system call `op`. -/
def noSuchFile (op path : GoString) : GoError :=
  { msg := op ++ [' '] ++ path ++ ": no such file or directory".toList, notExist := true }

/-- A source tree rooted at `rootDir`: the entries the walk visits and the contents of its
files.  Every other path does not exist. -/
def treeEnv (walk : List WalkEntry) (contents : List (GoString × GoString)) : Env where
  Stat path :=
    if path = rootDir then .ok { IsDir := true } else .error (noSuchFile "stat".toList path)
  Walk path :=
    if path = rootDir then walk
    else [{ path := path, isDir := false, err := some (noSuchFile "lstat".toList path) }]
  Open path :=
    match contents.lookup path with
    | some data => .ok { data := data }
    | none => .error (noSuchFile "open".toList path)
  Rel := demoRel
  xmlUnmarshal := demoXml
  jsonUnmarshal := demoJson

/-- The walk of a tree holding `MyApp.csproj` and `Properties/launchSettings.json`. -/
def walkMyApp : List WalkEntry :=
  [ { path := "/src".toList, isDir := true, err := none },
    { path := "/src/MyApp.csproj".toList, isDir := false, err := none },
    { path := "/src/Properties".toList, isDir := true, err := none },
    { path := "/src/Properties/launchSettings.json".toList, isDir := false, err := none } ]

/-- The tree of the specification's example. -/
def envMyApp : Env :=
  treeEnv walkMyApp
    [ ("/src/MyApp.csproj".toList, csprojNet5),
      ("/src/Properties/launchSettings.json".toList, launchGood) ]

/-- The same tree with a profile that has no `applicationUrl`. -/
def envNoUrl : Env :=
  treeEnv walkMyApp
    [ ("/src/MyApp.csproj".toList, csprojNet5),
      ("/src/Properties/launchSettings.json".toList, launchNoUrl) ]

/-- The same tree with a URL that holds no digit. -/
def envNoPort : Env :=
  treeEnv walkMyApp
    [ ("/src/MyApp.csproj".toList, csprojNet5),
      ("/src/Properties/launchSettings.json".toList, launchNoPort) ]

/-- The same tree with a descriptor that is not well-formed XML. -/
def envBroken : Env :=
  treeEnv walkMyApp
    [ ("/src/MyApp.csproj".toList, csprojBroken),
      ("/src/Properties/launchSettings.json".toList, launchGood) ]

/-- A tree with a `net5.0` descriptor followed by a `netcoreapp3.1` descriptor. -/
def envTwo : Env :=
  treeEnv
    [ { path := "/src".toList, isDir := true, err := none },
      { path := "/src/A.csproj".toList, isDir := false, err := none },
      { path := "/src/B.csproj".toList, isDir := false, err := none } ]
    [ ("/src/A.csproj".toList, csprojNet5), ("/src/B.csproj".toList, csprojNet31) ]

/-- A tree with no files at all. -/
def envEmpty : Env := treeEnv [{ path := "/src".toList, isDir := true, err := none }] []

/-- The `ConfigInfo` of the specification's example. -/
def cfgMyApp : ConfigInfo :=
  { version := "net5.0".toList
    ports := [5000]
    httpPort := 5000
    httpsPort := 5001
    appName := "MyApp".toList
    path := "MyApp.csproj".toList }

/-- A `ConfigInfo` in which only the appName `MyApp` is set. -/
def cfgNamed : ConfigInfo :=
  { version := []
    ports := []
    httpPort := 0
    httpsPort := 0
    appName := "MyApp".toList
    path := [] }

/-- The `ConfigInfo` `cfgNamed` after the launch settings of `envMyApp` were processed. -/
def cfgLaunched : ConfigInfo :=
  { version := []
    ports := [5000]
    httpPort := 5000
    httpsPort := 5001
    appName := "MyApp".toList
    path := [] }

/-- The `ConfigInfo` returned for the tree `envBroken`. -/
def cfgBroken : ConfigInfo :=
  { version := []
    ports := []
    httpPort := 0
    httpsPort := 0
    appName := "MyApp".toList
    path := "MyApp.csproj".toList }

/-- The `ConfigInfo` returned for the tree `envTwo`. -/
def cfgTwo : ConfigInfo :=
  { version := "netcoreapp3.1".toList
    ports := []
    httpPort := 0
    httpsPort := 0
    appName := "B".toList
    path := "B.csproj".toList }

/-- A path below the regular file `/src/MyApp.csproj`: no such root exists. -/
def belowFile : GoString := "/src/MyApp.csproj/sub".toList

/-- The error `os.Stat` reports for a path below a regular file (`ENOTDIR`); `os.IsNotExist`
is false of it. -/
def notADirectory : GoError :=
  { msg := "stat /src/MyApp.csproj/sub: not a directory".toList, notExist := false }

/-- The tree of the specification's example, with `os.Stat` answering for `belowFile`. -/
def envBelowFile : Env :=
  { envMyApp with
    Stat := fun path => if path = belowFile then .error notADirectory else envMyApp.Stat path }

/-- A URL without a port: it starts with one of the two schemes and holds no decimal digit. -/
def Portless (u : GoString) : Prop :=
  (httpScheme <+: u ∨ httpsScheme <+: u) ∧ ∀ ch ∈ u, ch.isDigit = false

/-- The second configuration has the version, application name and path of the first. -/
def SameProject (c c1 : ConfigInfo) : Prop :=
  c1.version = c.version ∧ c1.appName = c.appName ∧ c1.path = c.path

/-! ## Facts about `filepath.Ext` -/

theorem extScan_no_dot (name acc : GoString)
    (hdot : ∀ c ∈ name, c ≠ '.') (hsep : ∀ c ∈ name, IsPathSeparator c = false)
    (rest : GoString) (hrest : rest = [] ∨ ∃ r, rest = '/' :: r) :
    extScan (name ++ rest) acc = [] := by
  induction name generalizing acc with
  | nil =>
    rcases hrest with h | ⟨r, h⟩
    · subst h; rfl
    · subst h; simp [extScan, IsPathSeparator]
  | cons c cs ih =>
    have h1 : IsPathSeparator c = false := hsep c (List.mem_cons_self _ _)
    have h2 : c ≠ '.' := hdot c (List.mem_cons_self _ _)
    simp only [List.cons_append, extScan, h1, h2, if_false, Bool.false_eq_true,
      List.append_eq]
    exact ih _ (fun d hd => hdot d (List.mem_cons_of_mem _ hd))
      (fun d hd => hsep d (List.mem_cons_of_mem _ hd))

theorem extScan_dot (e acc rest : GoString)
    (hdot : ∀ c ∈ e, c ≠ '.') (hsep : ∀ c ∈ e, IsPathSeparator c = false) :
    extScan (e ++ '.' :: rest) acc = '.' :: (e.reverse ++ acc) := by
  induction e generalizing acc with
  | nil => simp [extScan, IsPathSeparator]
  | cons c cs ih =>
    have h1 : IsPathSeparator c = false := hsep c (List.mem_cons_self _ _)
    have h2 : c ≠ '.' := hdot c (List.mem_cons_self _ _)
    simp only [List.cons_append, extScan, h1, h2, if_false, Bool.false_eq_true,
      List.append_eq]
    rw [ih _ (fun d hd => hdot d (List.mem_cons_of_mem _ hd))
      (fun d hd => hsep d (List.mem_cons_of_mem _ hd))]
    simp

/-- The extension is the suffix that starts at the last dot of the final path element. -/
theorem Ext_last_dot (front e : GoString)
    (hdot : ∀ c ∈ e, c ≠ '.') (hsep : ∀ c ∈ e, c ≠ '/') :
    Ext (front ++ '.' :: e) = '.' :: e := by
  unfold Ext
  rw [List.reverse_append, List.reverse_cons, List.append_assoc]
  rw [show [('.' : Char)] ++ front.reverse = '.' :: front.reverse from rfl]
  rw [extScan_dot e.reverse [] front.reverse
    (fun c hc => hdot c (List.mem_reverse.mp hc))
    (fun c hc => by
      have := hsep c (List.mem_reverse.mp hc)
      simpa [IsPathSeparator] using this)]
  simp

/-- A final path element without a dot has the empty extension. -/
theorem Ext_no_dot (front name : GoString)
    (hfront : front = [] ∨ ∃ d, front = d ++ ['/'])
    (hdot : ∀ c ∈ name, c ≠ '.') (hsep : ∀ c ∈ name, c ≠ '/') :
    Ext (front ++ name) = [] := by
  unfold Ext
  rw [List.reverse_append]
  apply extScan_no_dot
  · exact fun c hc => hdot c (List.mem_reverse.mp hc)
  · intro c hc
    have := hsep c (List.mem_reverse.mp hc)
    simpa [IsPathSeparator] using this
  · rcases hfront with h | ⟨d, h⟩
    · left; simp [h]
    · right; exact ⟨d.reverse, by simp [h]⟩

/-! ## Facts about `GetFilesByExt` -/

/-- The inner loop over a duplicate-free `exts` appends the path once when the file's
extension is among them, and not at all otherwise. -/
theorem extsLoop_eq (fext path : GoString) (exts : List GoString) (hexts : exts.Nodup)
    (files : List GoString) :
    exts.foldl (fun fs ext => if fext = ext then fs ++ [path] else fs) files
      = files ++ (if fext ∈ exts then [path] else []) := by
  induction exts generalizing files with
  | nil => simp
  | cons x xs ih =>
    have hx : x ∉ xs := (List.nodup_cons.mp hexts).1
    simp only [List.foldl_cons]
    rw [ih (List.nodup_cons.mp hexts).2]
    by_cases h : fext = x
    · subst h
      simp [hx]
    · simp [h]

theorem filepathWalk_readable (inputPath : GoString) (exts : List GoString)
    (hexts : exts.Nodup) (entries : List WalkEntry) (hread : ∀ e ∈ entries, e.err = none)
    (files : List GoString) :
    filepathWalk (walkFn inputPath exts) entries files
      = (files ++ selected exts entries, none) := by
  induction entries generalizing files with
  | nil => simp [filepathWalk, selected]
  | cons e es ih =>
    have he : e.err = none := hread e (List.mem_cons_self _ _)
    have hes : ∀ x ∈ es, x.err = none := fun x hx => hread x (List.mem_cons_of_mem _ hx)
    have hfn : walkFn inputPath exts files e
        = (files ++ selected exts [e], none) := by
      unfold walkFn selected
      simp only [he, Option.isSome_none, Bool.false_eq_true, false_and, if_false]
      by_cases hd : e.isDir = true
      · simp [hd]
      · simp only [hd, if_false, Bool.false_eq_true]
        rw [extsLoop_eq _ _ _ hexts]
        by_cases hm : Ext e.path ∈ exts
        · simp [hm, hd]
        · simp [hm]
    simp only [filepathWalk, hfn]
    rw [ih hes]
    simp [selected, List.filter_cons]
    split <;> simp

/-! ## Facts about the loops of `DetectDotNETCore` -/

/-- The two regular-expression tests of a scheme amount to a test for a literal start. -/
theorem schemeStep_eq (scheme : GoString) (set : ConfigInfo → Int → ConfigInfo)
    (url : GoString) (c : ConfigInfo) :
    schemeStep scheme set url c =
      if scheme.isPrefixOf url = true then
        match findDigits url with
        | [] => .error Fault.indexOutOfRange
        | digits :: _ => .ok (set c (Atoi digits).1)
      else .ok c := by
  unfold schemeStep findAnchored
  by_cases h : scheme.isPrefixOf url = true
  · simp only [h, if_true]
    cases findDigits url <;> simp
  · simp [h]

theorem schemeStep_same (scheme : GoString) (set : ConfigInfo → Int → ConfigInfo)
    (hset : ∀ c p, SameProject c (set c p) ∧ (set c p).ports = c.ports)
    (url : GoString) (c c1 : ConfigInfo) (h : schemeStep scheme set url c = .ok c1) :
    SameProject c c1 ∧ c1.ports = c.ports := by
  rw [schemeStep_eq] at h
  split at h
  · split at h
    · exact absurd h (by simp)
    · injection h with h
      subst h
      exact hset _ _
  · injection h with h
    subst h
    simp [SameProject]

theorem urlStep_same (c c1 : ConfigInfo) (url : GoString) (h : urlStep c url = .ok c1) :
    SameProject c c1 ∧ c1.ports = c.ports := by
  unfold urlStep at h
  cases hs : schemeStep httpsScheme (fun c port => { c with httpsPort := port }) url c with
  | error f => simp [hs] at h
  | ok c2 =>
    simp only [hs] at h
    have h1 := schemeStep_same _ _ (fun c p => by simp [SameProject]) url c c2 hs
    have h2 := schemeStep_same _ _ (fun c p => by simp [SameProject]) url c2 c1 h
    unfold SameProject at *
    refine ⟨⟨?_, ?_, ?_⟩, ?_⟩
    · rw [h2.1.1, h1.1.1]
    · rw [h2.1.2.1, h1.1.2.1]
    · rw [h2.1.2.2, h1.1.2.2]
    · rw [h2.2, h1.2]

theorem urlLoop_same (urls : List GoString) (c c1 : ConfigInfo)
    (h : urlLoop urls c = .ok c1) : SameProject c c1 ∧ c1.ports = c.ports := by
  induction urls generalizing c with
  | nil =>
    simp only [urlLoop] at h
    injection h with h
    subst h
    simp [SameProject]
  | cons url rest ih =>
    simp only [urlLoop] at h
    cases hs : urlStep c url with
    | error f => simp [hs] at h
    | ok c2 =>
      simp only [hs] at h
      have h1 := urlStep_same c c2 url hs
      have h2 := ih c2 h
      unfold SameProject at *
      refine ⟨⟨?_, ?_, ?_⟩, ?_⟩
      · rw [h2.1.1, h1.1.1]
      · rw [h2.1.2.1, h1.1.2.1]
      · rw [h2.1.2.2, h1.1.2.2]
      · rw [h2.2, h1.2]

/-- A profile that is processed without a panic is an object with a string
`applicationUrl`; the result is that of the URL loop with `httpPort` appended. -/
theorem processProfile_ok (profile : GoValue) (c c1 : ConfigInfo)
    (h : processProfile profile c = .ok c1) :
    ∃ profiles applicationUrls c2, profile = GoValue.map profiles
      ∧ mapIndex profiles applicationUrlKey = GoValue.string applicationUrls
      ∧ urlLoop (Split ';' applicationUrls) c = .ok c2
      ∧ c1 = { c2 with ports := c2.ports ++ [c2.httpPort] } := by
  unfold processProfile at h
  split at h
  · rename_i profiles
    split at h
    · rename_i applicationUrls hidx
      split at h
      · exact absurd h (by simp)
      · rename_i c2 hloop
        injection h with h
        exact ⟨profiles, applicationUrls, c2, rfl, hidx, hloop, h.symm⟩
    · exact absurd h (by simp)
  · exact absurd h (by simp)

theorem processProfile_same (profile : GoValue) (c c1 : ConfigInfo)
    (h : processProfile profile c = .ok c1) :
    SameProject c c1 ∧ c1.ports = c.ports ++ [c1.httpPort] := by
  obtain ⟨profiles, applicationUrls, c2, _, _, hloop, hc1⟩ := processProfile_ok profile c c1 h
  have h2 := urlLoop_same _ c c2 hloop
  subst hc1
  unfold SameProject at *
  simp [h2.1.1, h2.1.2.1, h2.1.2.2, h2.2]

/-- One `.json` file: a file that contributes has its profile processed, any other file
leaves `configInfo` as it was. -/
theorem launchStep_result (env : Env) (s : GoString × ConfigInfo) (jsonFile : GoString) :
    (launchStep env s jsonFile).2 =
      if contributes env s.2.appName jsonFile = true then
        processProfile (mapIndex (readLaunchSettings env jsonFile).Profiles s.2.appName) s.2
      else .ok s.2 := by
  unfold launchStep contributes
  by_cases hb : Base jsonFile = launchSettingsJson
  · rw [if_pos hb]
    by_cases hn : (mapIndex (readLaunchSettings env jsonFile).Profiles s.2.appName).isNil = true
    · simp [hb, hn]
    · simp [hb, hn]
  · rw [if_neg hb]
    simp [hb]

theorem launchStep_same (env : Env) (s : GoString × ConfigInfo) (jsonFile : GoString)
    (c1 : ConfigInfo) (h : (launchStep env s jsonFile).2 = .ok c1) : SameProject s.2 c1 := by
  rw [launchStep_result] at h
  split at h
  · exact (processProfile_same _ _ _ h).1
  · injection h with h
    subst h
    simp [SameProject]

theorem launchLoop_same (env : Env) (jsonFiles : List GoString) (s : GoString × ConfigInfo)
    (c1 : ConfigInfo) (h : (launchLoop env jsonFiles s).2 = .ok c1) : SameProject s.2 c1 := by
  induction jsonFiles generalizing s with
  | nil =>
    simp only [launchLoop] at h
    injection h with h
    subst h
    simp [SameProject]
  | cons jsonFile rest ih =>
    simp only [launchLoop] at h
    cases hs : launchStep env s jsonFile with
    | mk out r =>
      cases r with
      | error f => simp [hs] at h
      | ok c2 =>
        simp only [hs] at h
        have h1 := launchStep_same env s jsonFile c2 (by rw [hs])
        have h2 := ih (out, c2) h
        unfold SameProject at *
        exact ⟨by rw [h2.1, h1.1], by rw [h2.2.1, h1.2.1], by rw [h2.2.2, h1.2.2]⟩

/-- The first loop sets the three fields from the last descriptor it meets. -/
theorem csprojLoop_snoc (env : Env) (sourcePath : GoString) (front : List GoString)
    (last : GoString) (s : GoString × ConfigInfo) :
    csprojLoop env sourcePath (front ++ [last]) s
      = csprojStep env sourcePath (csprojLoop env sourcePath front s) last := by
  simp [csprojLoop, List.foldl_append]

/-- The first loop never touches the ports. -/
theorem csprojLoop_ports (env : Env) (sourcePath : GoString) (files : List GoString)
    (s : GoString × ConfigInfo) :
    (csprojLoop env sourcePath files s).2.ports = s.2.ports
    ∧ (csprojLoop env sourcePath files s).2.httpPort = s.2.httpPort
    ∧ (csprojLoop env sourcePath files s).2.httpsPort = s.2.httpsPort := by
  induction files generalizing s with
  | nil => simp [csprojLoop]
  | cons f rest ih =>
    have := ih (csprojStep env sourcePath s f)
    simp only [csprojLoop, List.foldl_cons] at this ⊢
    rw [this.1, this.2.1, this.2.2]
    simp [csprojStep]

/-- The shape of a run of `DetectDotNETCore` that returns. -/
theorem DetectDotNETCore_ok (env : Env) (sourcePath : GoString) (out : GoString) (b : Bool)
    (c : ConfigInfo) (h : DetectDotNETCore env sourcePath = (out, .ok (b, c))) :
    ∃ csprojFiles err,
      GetFilesByExt env sourcePath [csProj] = .ok (csprojFiles, err)
      ∧ SameProject
          (csprojLoop env sourcePath csprojFiles (printIfErr [] err, ConfigInfo.zero)).2 c
      ∧ (b = true ↔
          (csprojLoop env sourcePath csprojFiles (printIfErr [] err, ConfigInfo.zero)).2.version
            = DotNETCore5)
      ∧ (b = false →
          out = (csprojLoop env sourcePath csprojFiles (printIfErr [] err, ConfigInfo.zero)).1
          ∧ c = (csprojLoop env sourcePath csprojFiles
                  (printIfErr [] err, ConfigInfo.zero)).2) := by
  unfold DetectDotNETCore at h
  split at h
  · simp at h
  · rename_i csprojFiles err hget
    refine ⟨csprojFiles, err, hget, ?_⟩
    simp only at h
    split at h
    · rename_i hv
      split at h
      · simp at h
      · rename_i jsonFiles err1 hget1
        split at h
        · simp at h
        · rename_i out1 c1 hloop
          simp only [Prod.mk.injEq, Except.ok.injEq] at h
          obtain ⟨_, hb, hc⟩ := h
          subst hb hc
          refine ⟨?_, ?_, ?_⟩
          · have hl := launchLoop_same env jsonFiles _ c1 (congrArg Prod.snd hloop)
            exact hl
          · simp [hv]
          · intro hf
            simp at hf
    · rename_i hv
      simp only [Prod.mk.injEq, Except.ok.injEq] at h
      obtain ⟨ho, hb, hc⟩ := h
      subst ho hb hc
      refine ⟨by simp [SameProject], by simp [hv], fun _ => ⟨rfl, rfl⟩⟩

/-! ## Facts about the port extraction -/

theorem findDigits_nil_iff (u : GoString) :
    findDigits u = [] ↔ ∀ ch ∈ u, ch.isDigit = false := by
  induction u with
  | nil => simp [findDigits]
  | cons c cs ih =>
    by_cases hc : c.isDigit = true
    · simp [findDigits, List.dropWhile, hc]
    · have hc1 : c.isDigit = false := by simpa using hc
      have hstep : findDigits (c :: cs) = findDigits cs := by
        simp [findDigits, List.dropWhile, hc1]
      rw [hstep, ih]
      simp [hc1]

theorem takeWhile_run (run rest : GoString) (hdig : ∀ ch ∈ run, ch.isDigit = true)
    (hrest : ∀ ch, rest.head? = some ch → ch.isDigit = false) :
    (run ++ rest).takeWhile Char.isDigit = run := by
  induction run with
  | nil =>
    cases rest with
    | nil => rfl
    | cons r rs =>
      have := hrest r rfl
      simp [List.takeWhile, this]
  | cons c cs ih =>
    have hc : c.isDigit = true := hdig c (List.mem_cons_self _ _)
    simp only [List.cons_append, List.takeWhile, hc, List.append_eq]
    rw [ih (fun d hd => hdig d (List.mem_cons_of_mem _ hd))]

/-- The first match of `[0-9]+` is the first maximal run of decimal digits. -/
theorem findDigits_run (front run rest : GoString)
    (hfront : ∀ ch ∈ front, ch.isDigit = false) (hne : run ≠ [])
    (hdig : ∀ ch ∈ run, ch.isDigit = true)
    (hrest : ∀ ch, rest.head? = some ch → ch.isDigit = false) :
    findDigits (front ++ run ++ rest) = [run] := by
  induction front with
  | nil =>
    cases run with
    | nil => exact absurd rfl hne
    | cons d ds =>
      have hd : d.isDigit = true := hdig d (List.mem_cons_self _ _)
      have htw := takeWhile_run (d :: ds) rest hdig hrest
      simp only [List.cons_append] at htw
      simp only [findDigits, List.nil_append, List.cons_append, List.dropWhile, hd,
        Bool.not_true, List.append_eq, htw]
  | cons c cs ih =>
    have hc : c.isDigit = false := hfront c (List.mem_cons_self _ _)
    have hstep : findDigits (c :: cs ++ run ++ rest) = findDigits (cs ++ run ++ rest) := by
      simp [findDigits, List.dropWhile, hc]
    rw [hstep]
    exact ih (fun d hd => hfront d (List.mem_cons_of_mem _ hd))

/-- On a non-empty run of digits whose value fits, `Atoi` returns that value. -/
theorem Atoi_run (run : GoString) (hne : run ≠ []) (hdig : ∀ ch ∈ run, ch.isDigit = true)
    (hfit : decimalValue run < 2 ^ 63) : Atoi run = ((decimalValue run : Int), false) := by
  cases run with
  | nil => exact absurd rfl hne
  | cons d ds =>
    have hd : d.isDigit = true := hdig d (List.mem_cons_self _ _)
    have hminus : d ≠ '-' := by
      intro h
      rw [h] at hd
      exact absurd hd (by decide)
    have hplus : d ≠ '+' := by
      intro h
      rw [h] at hd
      exact absurd hd (by decide)
    have hall : (d :: ds).all Char.isDigit = true := List.all_eq_true.mpr hdig
    have hlt : ¬ decimalValue (d :: ds) ≥ 2 ^ 63 := Nat.not_le.mpr hfit
    unfold Atoi
    simp only [List.head?_cons, Option.some.injEq, hminus, hplus, or_self, if_false, hall,
      not_true_eq_false, or_false, hlt, decide_False, Bool.false_eq_true]
    simp

theorem https_not_http (u : GoString) (h : httpsScheme.isPrefixOf u = true) :
    httpScheme.isPrefixOf u = false := by
  obtain ⟨t, rfl⟩ := List.isPrefixOf_iff_prefix.mp h
  simp [httpsScheme, httpScheme, List.isPrefixOf]

theorem http_not_https (u : GoString) (h : httpScheme.isPrefixOf u = true) :
    httpsScheme.isPrefixOf u = false := by
  obtain ⟨t, rfl⟩ := List.isPrefixOf_iff_prefix.mp h
  simp [httpsScheme, httpScheme, List.isPrefixOf]

/-- The body of the URL loop in terms of the two literal starts. -/
theorem urlStep_eq (c : ConfigInfo) (url : GoString) :
    urlStep c url =
      if httpsScheme.isPrefixOf url = true then
        match findDigits url with
        | [] => .error Fault.indexOutOfRange
        | digits :: _ => .ok { c with httpsPort := (Atoi digits).1 }
      else if httpScheme.isPrefixOf url = true then
        match findDigits url with
        | [] => .error Fault.indexOutOfRange
        | digits :: _ => .ok { c with httpPort := (Atoi digits).1 }
      else .ok c := by
  unfold urlStep
  simp only [schemeStep_eq]
  by_cases h1 : httpsScheme.isPrefixOf url = true
  · have h2 := https_not_http url h1
    simp only [h1, if_true, h2, Bool.false_eq_true, if_false]
    cases findDigits url <;> rfl
  · simp only [h1, Bool.false_eq_true, if_false]

/-- A URL either is portless, and then the loop body panics with an index out of range, or
it is not, and then the loop body completes. -/
theorem urlStep_cases (c : ConfigInfo) (url : GoString) :
    (Portless url ∧ urlStep c url = .error Fault.indexOutOfRange)
    ∨ (¬ Portless url ∧ ∃ c1, urlStep c url = .ok c1) := by
  rw [urlStep_eq]
  unfold Portless
  by_cases h1 : httpsScheme.isPrefixOf url = true
  · have p1 : httpsScheme <+: url := List.isPrefixOf_iff_prefix.mp h1
    simp only [h1, if_true]
    cases hd : findDigits url with
    | nil => exact Or.inl ⟨⟨Or.inr p1, (findDigits_nil_iff url).mp hd⟩, rfl⟩
    | cons d ds =>
      refine Or.inr ⟨?_, _, rfl⟩
      intro hp
      rw [(findDigits_nil_iff url).mpr hp.2] at hd
      exact absurd hd (by simp)
  · by_cases h2 : httpScheme.isPrefixOf url = true
    · have p2 : httpScheme <+: url := List.isPrefixOf_iff_prefix.mp h2
      simp only [h1, h2, if_true, if_false]
      cases hd : findDigits url with
      | nil => exact Or.inl ⟨⟨Or.inl p2, (findDigits_nil_iff url).mp hd⟩, rfl⟩
      | cons d ds =>
        refine Or.inr ⟨?_, _, rfl⟩
        intro hp
        rw [(findDigits_nil_iff url).mpr hp.2] at hd
        exact absurd hd (by simp)
    · simp only [h1, h2, if_false]
      refine Or.inr ⟨?_, _, rfl⟩
      intro hp
      rcases hp.1 with p | p
      · exact h2 (List.isPrefixOf_iff_prefix.mpr p)
      · exact h1 (List.isPrefixOf_iff_prefix.mpr p)

/-- The URL loop panics, with an index out of range, exactly when some URL is portless. -/
theorem urlLoop_cases (urls : List GoString) (c : ConfigInfo) :
    ((∃ u ∈ urls, Portless u) ∧ urlLoop urls c = .error Fault.indexOutOfRange)
    ∨ ((¬ ∃ u ∈ urls, Portless u) ∧ ∃ c1, urlLoop urls c = .ok c1) := by
  induction urls generalizing c with
  | nil => exact Or.inr ⟨by simp, c, rfl⟩
  | cons url rest ih =>
    rcases urlStep_cases c url with ⟨hp, he⟩ | ⟨hnp, c1, hok⟩
    · exact Or.inl ⟨⟨url, List.mem_cons_self _ _, hp⟩, by simp [urlLoop, he]⟩
    · rcases ih c1 with ⟨⟨u, hu, hpu⟩, he⟩ | ⟨hnone, c2, hok2⟩
      · exact Or.inl ⟨⟨u, List.mem_cons_of_mem _ hu, hpu⟩, by simp [urlLoop, hok, he]⟩
      · refine Or.inr ⟨?_, c2, by simp [urlLoop, hok, hok2]⟩
        rintro ⟨u, hu, hpu⟩
        rcases List.mem_cons.mp hu with rfl | hu
        · exact hnp hpu
        · exact hnone ⟨u, hu, hpu⟩

/-- The second loop appends, for each contributing file in turn, the `httpPort` held once
that file's profile has been processed. -/
theorem launchLoop_ports (env : Env) (jsonFiles : List GoString) (s : GoString × ConfigInfo)
    (c1 : ConfigInfo) (h : (launchLoop env jsonFiles s).2 = .ok c1) :
    c1.ports = s.2.ports ++ specPorts env jsonFiles s.2
    ∧ (specPorts env jsonFiles s.2).length
        = (jsonFiles.filter (contributes env s.2.appName)).length := by
  induction jsonFiles generalizing s with
  | nil =>
    simp only [launchLoop] at h
    injection h with h
    subst h
    simp [specPorts]
  | cons jsonFile rest ih =>
    simp only [launchLoop] at h
    cases hs : launchStep env s jsonFile with
    | mk out r =>
      have hr : (launchStep env s jsonFile).2 = r := by rw [hs]
      cases r with
      | error f => simp [hs] at h
      | ok c2 =>
        simp only [hs] at h
        obtain ⟨ih1, ih2⟩ := ih (out, c2) h
        simp only at ih1 ih2
        rw [launchStep_result] at hr
        by_cases hc : contributes env s.2.appName jsonFile = true
        · rw [if_pos hc] at hr
          obtain ⟨hsame, hports⟩ := processProfile_same _ _ _ hr
          have happ : c2.appName = s.2.appName := hsame.2.1
          rw [happ] at ih2
          simp only [specPorts, hc, if_true, hr, List.filter_cons, List.length_cons, ih2]
          rw [ih1, hports]
          simp
        · rw [if_neg hc] at hr
          injection hr with hr
          subst hr
          simp only [specPorts, hc, if_false, List.filter_cons, Bool.false_eq_true]
          exact ⟨ih1, ih2⟩

/-- The loop over the ports prints them separated by commas, with no trailing comma. -/
theorem printPorts_eq (ports : List Int) (n i : Nat) (out : GoString)
    (hn : n = i + ports.length) :
    printPorts n i ports out = out ++ joinComma (ports.map fmtD) := by
  induction ports generalizing i out with
  | nil => simp [printPorts, joinComma]
  | cons port rest ih =>
    cases rest with
    | nil =>
      have hlast : ¬ ((i : Int) ≠ (n : Int) - 1) := by
        simp only [List.length_cons, List.length_nil] at hn
        omega
      simp only [printPorts, hlast, if_false, List.map_cons, List.map_nil, joinComma]
    | cons port1 rest1 =>
      have hmore : (i : Int) ≠ (n : Int) - 1 := by
        simp only [List.length_cons] at hn
        omega
      have hn1 : n = (i + 1) + (port1 :: rest1).length := by
        simp only [List.length_cons] at hn ⊢
        omega
      rw [printPorts]
      simp only [hmore, ne_eq, not_false_eq_true, if_true]
      rw [ih (i + 1) _ hn1]
      simp [joinComma]

/-- The success branch of `main` prints the line of the specification. -/
theorem printResult_eq (out : GoString) (c : ConfigInfo) :
    printResult out c = out ++ specLine c.path c.ports c.httpPort c.appName := by
  simp only [printResult, specLine]
  rw [printPorts_eq c.ports c.ports.length 0 _ (by simp)]
  simp [List.append_assoc]

/-- The first loop prints nothing when every descriptor opens and has a relative path. -/
theorem csprojLoop_quiet (env : Env) (sourcePath : GoString) (csprojFiles : List GoString)
    (s : GoString × ConfigInfo)
    (hopen : ∀ f ∈ csprojFiles, ∃ file, env.Open f = .ok file)
    (hrel : ∀ f ∈ csprojFiles, (env.Rel sourcePath f).2 = none) :
    (csprojLoop env sourcePath csprojFiles s).1 = s.1 := by
  induction csprojFiles generalizing s with
  | nil => rfl
  | cons f rest ih =>
    have h1 := ih (csprojStep env sourcePath s f)
      (fun g hg => hopen g (List.mem_cons_of_mem _ hg))
      (fun g hg => hrel g (List.mem_cons_of_mem _ hg))
    obtain ⟨file, hfile⟩ := hopen f (List.mem_cons_self _ _)
    have hr := hrel f (List.mem_cons_self _ _)
    simp only [csprojLoop, List.foldl_cons] at h1 ⊢
    rw [h1]
    simp [csprojStep, hfile, hr, printIfErr]

/-- What the decoder leaves in a fresh `ConfigurationDotNETCore` for a descriptor file. -/
theorem csprojStep_fields (env : Env) (sourcePath : GoString) (s : GoString × ConfigInfo)
    (csprojFile : GoString) :
    (csprojStep env sourcePath s csprojFile).2 =
      { s.2 with
        version := (env.xmlUnmarshal (ReadAll (env.Open csprojFile))
          ConfigurationDotNETCore.zero).1.PropertyGroup.TargetFramework
        path := (env.Rel sourcePath csprojFile).1
        appName := TrimSuffix (Base csprojFile) (Ext csprojFile) } := rfl

/-! ## The claims -/

/-- C1: whenever `DetectDotNETCore` returns, it returns true if and only if the version of
the returned `ConfigInfo` is exactly `"net5.0"`; when the version accumulated by the
descriptor loop is anything else it does return, with false and that accumulated
`ConfigInfo`; with no descriptor file the version stays empty and the result is false with
the zero `ConfigInfo`. -/
theorem DetectDotNETCore_true_iff_net5 (env : Env) (sourcePath : GoString) :
    (∀ out b c, DetectDotNETCore env sourcePath = (out, .ok (b, c)) →
      (b = true ↔ c.version = DotNETCore5))
    ∧ (∀ csprojFiles err, GetFilesByExt env sourcePath [csProj] = .ok (csprojFiles, err) →
        (csprojLoop env sourcePath csprojFiles (printIfErr [] err, ConfigInfo.zero)).2.version
          ≠ DotNETCore5 →
        (DetectDotNETCore env sourcePath).2
          = .ok (false,
              (csprojLoop env sourcePath csprojFiles (printIfErr [] err, ConfigInfo.zero)).2))
    ∧ (∀ err, GetFilesByExt env sourcePath [csProj] = .ok ([], err) →
        (DetectDotNETCore env sourcePath).2 = .ok (false, ConfigInfo.zero)) := by
  refine ⟨?_, ?_, ?_⟩
  · intro out b c h
    obtain ⟨csprojFiles, err, _, hsame, hb, _⟩ := DetectDotNETCore_ok env sourcePath out b c h
    rw [hb, hsame.1]
  · intro csprojFiles err hget hv
    unfold DetectDotNETCore
    rw [hget]
    simp only [if_neg hv]
  · intro err hget
    unfold DetectDotNETCore
    rw [hget]
    have hv : (csprojLoop env sourcePath [] (printIfErr [] err, ConfigInfo.zero)).2.version
        ≠ DotNETCore5 := by
      simp only [csprojLoop, List.foldl_nil]
      decide
    simp only [if_neg hv]
    rfl

/-- The three parts of C1 on the example tree, a two-descriptor tree and an empty tree. -/
theorem DetectDotNETCore_true_iff_net5_witness :
    (true = true ↔ cfgMyApp.version = DotNETCore5)
    ∧ (DetectDotNETCore envTwo rootDir).2
        = .ok (false, (csprojLoop envTwo rootDir
            ["/src/A.csproj".toList, "/src/B.csproj".toList] ([], ConfigInfo.zero)).2)
    ∧ (DetectDotNETCore envEmpty rootDir).2 = .ok (false, ConfigInfo.zero) :=
  ⟨(DetectDotNETCore_true_iff_net5 envMyApp rootDir).1 [] true _ (by decide),
   (DetectDotNETCore_true_iff_net5 envTwo rootDir).2.1
      ["/src/A.csproj".toList, "/src/B.csproj".toList] none (by decide) (by decide),
   (DetectDotNETCore_true_iff_net5 envEmpty rootDir).2.2 none (by decide)⟩

/-- C7: when the enumeration yields the descriptors `front ++ [last]`, the version, path
and appName of every `ConfigInfo` that `DetectDotNETCore` returns are those of `last` alone:
the target framework decoded from it, its path relative to the root and its file-name stem.
If that target framework is not `"net5.0"` the detection returns false, whatever the
earlier descriptors hold. -/
theorem DetectDotNETCore_last_descriptor (env : Env) (sourcePath : GoString)
    (front : List GoString) (last : GoString) (err : Option GoError)
    (hfiles : GetFilesByExt env sourcePath [csProj] = .ok (front ++ [last], err)) :
    (∀ out b c, DetectDotNETCore env sourcePath = (out, .ok (b, c)) →
      c.version = (env.xmlUnmarshal (ReadAll (env.Open last))
          ConfigurationDotNETCore.zero).1.PropertyGroup.TargetFramework
      ∧ c.path = (env.Rel sourcePath last).1
      ∧ c.appName = TrimSuffix (Base last) (Ext last))
    ∧ ((env.xmlUnmarshal (ReadAll (env.Open last))
          ConfigurationDotNETCore.zero).1.PropertyGroup.TargetFramework ≠ DotNETCore5 →
        ∃ out c, DetectDotNETCore env sourcePath = (out, .ok (false, c))) := by
  have hlast : (csprojLoop env sourcePath (front ++ [last])
      (printIfErr [] err, ConfigInfo.zero)).2
      = { (csprojLoop env sourcePath front (printIfErr [] err, ConfigInfo.zero)).2 with
          version := (env.xmlUnmarshal (ReadAll (env.Open last))
            ConfigurationDotNETCore.zero).1.PropertyGroup.TargetFramework
          path := (env.Rel sourcePath last).1
          appName := TrimSuffix (Base last) (Ext last) } := by
    rw [csprojLoop_snoc, csprojStep_fields]
  refine ⟨?_, ?_⟩
  · intro out b c h
    obtain ⟨csprojFiles, err1, hget, hsame, _, _⟩ :=
      DetectDotNETCore_ok env sourcePath out b c h
    rw [hfiles] at hget
    simp only [Except.ok.injEq, Prod.mk.injEq] at hget
    obtain ⟨hf, he⟩ := hget
    subst hf he
    rw [hlast] at hsame
    exact ⟨hsame.1, hsame.2.2, hsame.2.1⟩
  · intro hv
    have hne : (csprojLoop env sourcePath (front ++ [last])
        (printIfErr [] err, ConfigInfo.zero)).2.version ≠ DotNETCore5 := by
      rw [hlast]
      exact hv
    refine ⟨(csprojLoop env sourcePath (front ++ [last])
        (printIfErr [] err, ConfigInfo.zero)).1,
      (csprojLoop env sourcePath (front ++ [last]) (printIfErr [] err, ConfigInfo.zero)).2, ?_⟩
    unfold DetectDotNETCore
    rw [hfiles]
    simp only [if_neg hne]

/-- The tree of C7 with a `net5.0` descriptor followed by a `netcoreapp3.1` descriptor. -/
theorem DetectDotNETCore_last_descriptor_witness :
    GetFilesByExt envTwo rootDir [csProj]
      = .ok (["/src/A.csproj".toList] ++ ["/src/B.csproj".toList], none)
    ∧ (envTwo.xmlUnmarshal (ReadAll (envTwo.Open "/src/A.csproj".toList))
        ConfigurationDotNETCore.zero).1.PropertyGroup.TargetFramework = DotNETCore5
    ∧ (DetectDotNETCore envTwo rootDir).2
        = .ok (false, cfgTwo)
    ∧ ∃ out c, DetectDotNETCore envTwo rootDir = (out, .ok (false, c)) :=
  ⟨by decide, by decide, by decide,
   (DetectDotNETCore_last_descriptor envTwo rootDir ["/src/A.csproj".toList]
      "/src/B.csproj".toList none (by decide)).2 (by decide)⟩

/-- C8, as the claim states it, fails: the descriptor `/src/MyApp.csproj` does not parse,
yet the path and the appName of the returned `ConfigInfo` are not their zero values. -/
theorem failed_parse_sets_path_and_appName :
    (envBroken.xmlUnmarshal (ReadAll (envBroken.Open "/src/MyApp.csproj".toList))
        ConfigurationDotNETCore.zero).2 ≠ none
    ∧ GetFilesByExt envBroken rootDir [csProj] = .ok (["/src/MyApp.csproj".toList], none)
    ∧ DetectDotNETCore envBroken rootDir
        = ([], .ok (false, cfgBroken))
    ∧ cfgBroken.path ≠ ConfigInfo.zero.path
    ∧ cfgBroken.appName ≠ ConfigInfo.zero.appName := by
  decide

/-- C8, amended: for a descriptor file whose content fails to parse, the parse error is not
surfaced (the only lines printed for the file are those of a failed open and a failed
relative-path computation), the version becomes the target framework the decoder left in the
fresh configuration, which is empty when the decoder left the configuration untouched, the
path and the appName are set from the file's path as for any descriptor, and the loop goes
on with the next descriptor file. -/
theorem failed_parse_step (env : Env) (sourcePath : GoString) (s : GoString × ConfigInfo)
    (csprojFile : GoString) (rest : List GoString) (e : GoError)
    (hfail : (env.xmlUnmarshal (ReadAll (env.Open csprojFile))
      ConfigurationDotNETCore.zero).2 = some e) :
    (csprojStep env sourcePath s csprojFile).1
        = printIfErr (printIfErr s.1
            (match env.Open csprojFile with | .error err => some err | .ok _ => none))
            (env.Rel sourcePath csprojFile).2
    ∧ (csprojStep env sourcePath s csprojFile).2.version
        = (env.xmlUnmarshal (ReadAll (env.Open csprojFile))
            ConfigurationDotNETCore.zero).1.PropertyGroup.TargetFramework
    ∧ ((env.xmlUnmarshal (ReadAll (env.Open csprojFile)) ConfigurationDotNETCore.zero).1
          = ConfigurationDotNETCore.zero →
        (csprojStep env sourcePath s csprojFile).2.version = [])
    ∧ (csprojStep env sourcePath s csprojFile).2.path = (env.Rel sourcePath csprojFile).1
    ∧ (csprojStep env sourcePath s csprojFile).2.appName
        = TrimSuffix (Base csprojFile) (Ext csprojFile)
    ∧ csprojLoop env sourcePath (csprojFile :: rest) s
        = csprojLoop env sourcePath rest (csprojStep env sourcePath s csprojFile) := by
  have _ := hfail
  refine ⟨rfl, rfl, ?_, rfl, rfl, rfl⟩
  intro hz
  rw [csprojStep_fields, hz]
  rfl

/-- The amended C8 on the descriptor of `envBroken`, which is not well-formed. -/
theorem failed_parse_step_witness :
    (envBroken.xmlUnmarshal (ReadAll (envBroken.Open "/src/MyApp.csproj".toList))
        ConfigurationDotNETCore.zero).2
      = some xmlSyntaxError
    ∧ (csprojStep envBroken rootDir ([], ConfigInfo.zero) "/src/MyApp.csproj".toList).2.version
        = []
    ∧ (csprojStep envBroken rootDir ([], ConfigInfo.zero) "/src/MyApp.csproj".toList).2.path
        = "MyApp.csproj".toList :=
  ⟨by decide,
   (failed_parse_step envBroken rootDir ([], ConfigInfo.zero) "/src/MyApp.csproj".toList []
      xmlSyntaxError (by decide)).2.2.1 (by decide),
   (failed_parse_step envBroken rootDir ([], ConfigInfo.zero) "/src/MyApp.csproj".toList []
      xmlSyntaxError (by decide)).2.2.2.1⟩

/-- C2: let `u` be a piece of `applicationUrl` whose first maximal run of decimal digits is
`run` (`u = front ++ run ++ rest`, no digit in `front`, `rest` not starting with a digit)
and whose value fits in an `int`.  If `u` starts with `https://`, processing it sets
`httpsPort` to that value and leaves `httpPort` alone; if it starts with `http://`, it sets
`httpPort` and leaves `httpsPort` alone; if it starts with neither, nothing changes.  The
URLs `https://MyApp:5001;http://MyApp:5000` yield httpsPort 5001 and httpPort 5000. -/
theorem urlStep_ports (c : ConfigInfo) (u front run rest : GoString)
    (hu : u = front ++ run ++ rest)
    (hfront : ∀ ch ∈ front, ch.isDigit = false) (hne : run ≠ [])
    (hdig : ∀ ch ∈ run, ch.isDigit = true)
    (hrest : ∀ ch, rest.head? = some ch → ch.isDigit = false)
    (hfit : decimalValue run < 2 ^ 63) :
    (httpsScheme <+: u → urlStep c u = .ok { c with httpsPort := (decimalValue run : Int) })
    ∧ (httpScheme <+: u → urlStep c u = .ok { c with httpPort := (decimalValue run : Int) })
    ∧ (¬ httpsScheme <+: u → ¬ httpScheme <+: u → urlStep c u = .ok c)
    ∧ urlLoop (Split ';' "https://MyApp:5001;http://MyApp:5000".toList) c
        = .ok { c with httpsPort := 5001, httpPort := 5000 } := by
  have hfd : findDigits u = [run] := by
    rw [hu]
    exact findDigits_run front run rest hfront hne hdig hrest
  have hat : (Atoi run).1 = (decimalValue run : Int) := by
    rw [Atoi_run run hne hdig hfit]
  refine ⟨?_, ?_, ?_, ?_⟩
  · intro h
    have h1 : httpsScheme.isPrefixOf u = true := List.isPrefixOf_iff_prefix.mpr h
    rw [urlStep_eq]
    simp only [h1, if_true, hfd, hat]
  · intro h
    have h2 : httpScheme.isPrefixOf u = true := List.isPrefixOf_iff_prefix.mpr h
    have h1 := http_not_https u h2
    rw [urlStep_eq]
    simp only [h1, h2, if_true, if_false, Bool.false_eq_true, hfd, hat]
  · intro h1 h2
    have h1b : ¬ httpsScheme.isPrefixOf u = true :=
      fun h => h1 (List.isPrefixOf_iff_prefix.mp h)
    have h2b : ¬ httpScheme.isPrefixOf u = true :=
      fun h => h2 (List.isPrefixOf_iff_prefix.mp h)
    rw [urlStep_eq]
    simp only [h1b, h2b, Bool.false_eq_true, if_false]
  · rfl

/-- The three cases of C2 on concrete URLs. -/
theorem urlStep_ports_witness :
    urlStep ConfigInfo.zero "https://MyApp:5001".toList
      = .ok { ConfigInfo.zero with httpsPort := 5001 }
    ∧ urlStep ConfigInfo.zero "http://127.0.0.1:5000".toList
      = .ok { ConfigInfo.zero with httpPort := 127 }
    ∧ urlStep ConfigInfo.zero "ftp://MyApp:21".toList = .ok ConfigInfo.zero :=
  ⟨(urlStep_ports ConfigInfo.zero "https://MyApp:5001".toList "https://MyApp:".toList
      "5001".toList [] (by decide) (by decide) (by decide) (by decide) (by decide)
      (by decide)).1 (by decide),
   (urlStep_ports ConfigInfo.zero "http://127.0.0.1:5000".toList "http://".toList
      "127".toList ".0.0.1:5000".toList (by decide) (by decide) (by decide) (by decide)
      (by decide) (by decide)).2.1 (by decide),
   (urlStep_ports ConfigInfo.zero "ftp://MyApp:21".toList "ftp://MyApp:".toList
      "21".toList [] (by decide) (by decide) (by decide) (by decide) (by decide)
      (by decide)).2.2.1 (by decide) (by decide)⟩

/-- C10: for a `launchSettings.json` file whose profile under appName is an object with a
string `applicationUrl`, processing the file panics if and only if some `;`-separated
piece of `applicationUrl` starts with `http://` or `https://` and holds no decimal digit;
the panic is then an index out of range.  Otherwise the URL loop completes and the file's
processing ends with `httpPort` appended to the ports. -/
theorem launchStep_fault_iff (env : Env) (s : GoString × ConfigInfo) (jsonFile : GoString)
    (profiles : List (GoString × GoValue)) (applicationUrl : GoString)
    (hbase : Base jsonFile = launchSettingsJson)
    (hprofile : mapIndex (readLaunchSettings env jsonFile).Profiles s.2.appName
      = GoValue.map profiles)
    (hurl : mapIndex profiles applicationUrlKey = GoValue.string applicationUrl) :
    ((∃ f, (launchStep env s jsonFile).2 = .error f)
      ↔ ∃ u ∈ Split ';' applicationUrl, Portless u)
    ∧ (∀ f, (launchStep env s jsonFile).2 = .error f → f = Fault.indexOutOfRange)
    ∧ ((¬ ∃ u ∈ Split ';' applicationUrl, Portless u) →
        ∃ c1, urlLoop (Split ';' applicationUrl) s.2 = .ok c1
          ∧ (launchStep env s jsonFile).2
              = .ok { c1 with ports := s.2.ports ++ [c1.httpPort] }) := by
  have hc : contributes env s.2.appName jsonFile = true := by
    unfold contributes
    rw [hprofile]
    simp [hbase, GoValue.isNil]
  have hstep : (launchStep env s jsonFile).2
      = match urlLoop (Split ';' applicationUrl) s.2 with
        | .error f => .error f
        | .ok c1 => .ok { c1 with ports := c1.ports ++ [c1.httpPort] } := by
    rw [launchStep_result, if_pos hc, hprofile]
    simp only [processProfile, hurl]
  rcases urlLoop_cases (Split ';' applicationUrl) s.2 with ⟨hex, he⟩ | ⟨hnone, c1, hok⟩
  · rw [hstep, he]
    refine ⟨⟨fun _ => hex, fun _ => ⟨_, rfl⟩⟩, ?_, fun hn => absurd hex hn⟩
    intro f hf
    injection hf with hf
    exact hf.symm
  · rw [hstep, hok]
    refine ⟨⟨fun ⟨f, hf⟩ => by simp at hf, fun h => absurd h hnone⟩, ?_, ?_⟩
    · intro f hf
      simp at hf
    · intro _
      refine ⟨c1, rfl, ?_⟩
      simp only [(urlLoop_same _ _ _ hok).2]

/-- The two outcomes of C10: a URL without a port, and the URLs of the example. -/
theorem launchStep_fault_iff_witness :
    ((∃ f, (launchStep envNoPort ([], cfgNamed)
          "/src/Properties/launchSettings.json".toList).2 = .error f)
      ↔ ∃ u ∈ Split ';' "http://localhost".toList, Portless u)
    ∧ (launchStep envNoPort ([], cfgNamed)
          "/src/Properties/launchSettings.json".toList).2 = .error Fault.indexOutOfRange
    ∧ (launchStep envMyApp ([], cfgNamed)
          "/src/Properties/launchSettings.json".toList).2 = .ok cfgLaunched :=
  ⟨(launchStep_fault_iff envNoPort ([], cfgNamed)
      "/src/Properties/launchSettings.json".toList
      [("applicationUrl".toList, GoValue.string "http://localhost".toList)]
      "http://localhost".toList (by decide) rfl rfl).1,
   by decide, by decide⟩

/-- A file whose profiles mapping has no entry, or a null entry, under appName is skipped:
no panic, and `configInfo` stays as it was. -/
theorem launchStep_no_profile (env : Env) (s : GoString × ConfigInfo) (jsonFile : GoString)
    (hnil : (mapIndex (readLaunchSettings env jsonFile).Profiles s.2.appName).isNil = true) :
    (launchStep env s jsonFile).2 = .ok s.2 := by
  rw [launchStep_result]
  simp [contributes, hnil]

/-- C5 fails on the code: in the tree `envNoUrl` the profile `MyApp` of
`launchSettings.json` is an object without an `applicationUrl`, and the scan panics on the
unchecked type assertion instead of skipping the file. -/
theorem missing_applicationUrl_panics :
    mapIndex (readLaunchSettings envNoUrl "/src/Properties/launchSettings.json".toList).Profiles
        "MyApp".toList
      = GoValue.map [("commandName".toList, GoValue.string "Project".toList)]
    ∧ mapIndex [("commandName".toList, GoValue.string "Project".toList)] applicationUrlKey
      = GoValue.null
    ∧ DetectDotNETCore envNoUrl rootDir = ([], .error Fault.interfaceConversion)
    ∧ (main envNoUrl ["detect".toList, rootDir]).status
      = .error Fault.interfaceConversion := by
  refine ⟨rfl, rfl, by decide, by decide⟩

/-- C3: when `DetectDotNETCore` returns true, the returned ports are exactly the ports of
the specification over the enumerated `.json` files: one entry for each file named
`launchSettings.json` whose profiles mapping has a non-null entry under appName, in
enumeration order, the entry being the `httpPort` held once that file's URLs have been
processed.  Nothing else is appended, and without a `launchSettings.json` file the ports
are empty. -/
theorem DetectDotNETCore_ports (env : Env) (sourcePath out : GoString) (c : ConfigInfo)
    (h : DetectDotNETCore env sourcePath = (out, .ok (true, c))) :
    ∃ csprojFiles err jsonFiles err1,
      GetFilesByExt env sourcePath [csProj] = .ok (csprojFiles, err)
      ∧ GetFilesByExt env sourcePath [jsonExt] = .ok (jsonFiles, err1)
      ∧ c.ports = specPorts env jsonFiles
          (csprojLoop env sourcePath csprojFiles (printIfErr [] err, ConfigInfo.zero)).2
      ∧ c.ports.length = (jsonFiles.filter (contributes env c.appName)).length
      ∧ ((∀ f ∈ jsonFiles, Base f ≠ launchSettingsJson) → c.ports = []) := by
  unfold DetectDotNETCore at h
  split at h
  · simp at h
  · rename_i csprojFiles err hget
    simp only at h
    split at h
    · split at h
      · simp at h
      · rename_i jsonFiles err1 hget1
        split at h
        · simp at h
        · rename_i out1 c1 hloop
          simp only [Prod.mk.injEq, Except.ok.injEq, true_and] at h
          obtain ⟨_, hc⟩ := h
          subst hc
          have hl := launchLoop_ports env jsonFiles _ c1 (congrArg Prod.snd hloop)
          have hsame := launchLoop_same env jsonFiles _ c1 (congrArg Prod.snd hloop)
          have hp0 := (csprojLoop_ports env sourcePath csprojFiles
            (printIfErr [] err, ConfigInfo.zero)).1
          simp only at hl hsame
          have hports : c1.ports = specPorts env jsonFiles
              (csprojLoop env sourcePath csprojFiles
                (printIfErr [] err, ConfigInfo.zero)).2 := by
            rw [hl.1, hp0]
            rfl
          have hlen : c1.ports.length
              = (jsonFiles.filter (contributes env c1.appName)).length := by
            rw [hports, hl.2, hsame.2.1]
          refine ⟨csprojFiles, err, jsonFiles, err1, hget, hget1, hports, hlen, ?_⟩
          intro hnone
          have hfilter : jsonFiles.filter (contributes env c1.appName) = [] := by
            rw [List.filter_eq_nil_iff]
            intro f hf
            simp [contributes, hnone f hf]
          rw [hfilter] at hlen
          exact List.length_eq_zero.mp hlen
    · simp at h

/-- The ports of C3 on the example tree: 5000 is recorded, 5001 is not. -/
theorem DetectDotNETCore_ports_witness :
    DetectDotNETCore envMyApp rootDir = ([], .ok (true, cfgMyApp))
    ∧ cfgMyApp.ports = [5000]
    ∧ cfgMyApp.httpsPort = 5001
    ∧ ∃ csprojFiles err jsonFiles err1,
      GetFilesByExt envMyApp rootDir [csProj] = .ok (csprojFiles, err)
      ∧ GetFilesByExt envMyApp rootDir [jsonExt] = .ok (jsonFiles, err1)
      ∧ cfgMyApp.ports = specPorts envMyApp jsonFiles
          (csprojLoop envMyApp rootDir csprojFiles (printIfErr [] err, ConfigInfo.zero)).2
      ∧ cfgMyApp.ports.length = (jsonFiles.filter (contributes envMyApp cfgMyApp.appName)).length
      ∧ ((∀ f ∈ jsonFiles, Base f ≠ launchSettingsJson) → cfgMyApp.ports = []) :=
  ⟨by decide, rfl, rfl, DetectDotNETCore_ports envMyApp rootDir [] cfgMyApp (by decide)⟩

/-- C4: when detection succeeds with `ConfigInfo` `c`, `main` appends to what
`DetectDotNETCore` wrote exactly the line of the specification for `c` (the ports in
decimal, joined by commas, no trailing comma, no spaces), newline included, and exits with
status 0.  For path `MyApp.csproj`, ports `[5000]`, httpPort 5000 and appName `MyApp` the
line is the one the specification shows. -/
theorem main_prints_line (env : Env) (prog sourcePath : GoString) (rest : List GoString)
    (out : GoString) (c : ConfigInfo)
    (h : DetectDotNETCore env sourcePath = (out, .ok (true, c))) :
    main env (prog :: sourcePath :: rest)
      = { stdout := out ++ specLine c.path c.ports c.httpPort c.appName, status := .ok 0 }
    ∧ specLine "MyApp.csproj".toList [5000] 5000 "MyApp".toList
      = "\x7b\"csprojPath\":  \"MyApp.csproj\", \"ports\": [5000], \"httpPort\": 5000, \"appName\": \"MyApp\"\x7d\n".toList := by
  refine ⟨?_, by decide⟩
  unfold main
  simp only [List.length_cons, List.getD_cons_succ, List.getD_cons_zero, h]
  rw [if_neg (by omega), if_pos trivial, printResult_eq]

/-- The line of C4 printed for the example tree. -/
theorem main_prints_line_witness :
    DetectDotNETCore envMyApp rootDir = ([], .ok (true, cfgMyApp))
    ∧ main envMyApp ["detect".toList, rootDir]
      = { stdout := "\x7b\"csprojPath\":  \"MyApp.csproj\", \"ports\": [5000], \"httpPort\": 5000, \"appName\": \"MyApp\"\x7d\n".toList,
          status := .ok 0 } :=
  ⟨by decide,
   (main_prints_line envMyApp "detect".toList rootDir [] [] cfgMyApp (by decide)).1⟩

/-- C6, as the claim states it, fails: for a root that does not exist the detection returns
false and the program exits with status 1, but the line of the `Stat` error is on standard
output. -/
theorem missing_root_prints_error :
    (DetectDotNETCore envMyApp "/nonexistent".toList).2 = .ok (false, ConfigInfo.zero)
    ∧ main envMyApp ["detect".toList, "/nonexistent".toList]
      = { stdout := "stat /nonexistent: no such file or directory\n".toList, status := .ok 1 }
    ∧ (main envMyApp ["detect".toList, "/nonexistent".toList]).stdout ≠ [] := by
  decide

/-- C6, amended: whenever `DetectDotNETCore` returns false the program exits with status 1
and `main` itself prints nothing, so that standard output holds exactly the error lines
`DetectDotNETCore` printed.  For a root that does not exist that is the one line of the
`Stat` error; when the enumeration reports no error and every descriptor opens and has a
relative path, standard output is empty. -/
theorem main_failure (env : Env) (prog sourcePath : GoString) (rest : List GoString) :
    (∀ out c, DetectDotNETCore env sourcePath = (out, .ok (false, c)) →
      main env (prog :: sourcePath :: rest) = { stdout := out, status := .ok 1 })
    ∧ (∀ err, env.Stat sourcePath = .error err → err.notExist = true →
      main env (prog :: sourcePath :: rest)
        = { stdout := err.msg ++ ['\n'], status := .ok 1 })
    ∧ (∀ csprojFiles, GetFilesByExt env sourcePath [csProj] = .ok (csprojFiles, none) →
      (∀ f ∈ csprojFiles, ∃ file, env.Open f = .ok file) →
      (∀ f ∈ csprojFiles, (env.Rel sourcePath f).2 = none) →
      (csprojLoop env sourcePath csprojFiles ([], ConfigInfo.zero)).2.version ≠ DotNETCore5 →
      main env (prog :: sourcePath :: rest) = { stdout := [], status := .ok 1 }) := by
  have hmain : ∀ out c, DetectDotNETCore env sourcePath = (out, .ok (false, c)) →
      main env (prog :: sourcePath :: rest) = { stdout := out, status := .ok 1 } := by
    intro out c h
    unfold main
    simp only [List.length_cons, List.getD_cons_succ, List.getD_cons_zero, h]
    rw [if_neg (by omega), if_neg (by simp)]
  refine ⟨hmain, ?_, ?_⟩
  · intro err hstat hne
    apply hmain _ ConfigInfo.zero
    have hget : GetFilesByExt env sourcePath [csProj] = .ok ([], some err) := by
      unfold GetFilesByExt
      rw [hstat]
      simp [hne]
    unfold DetectDotNETCore
    rw [hget]
    have hv : (csprojLoop env sourcePath [] (printIfErr [] (some err), ConfigInfo.zero)).2.version
        ≠ DotNETCore5 := by
      simp only [csprojLoop, List.foldl_nil]
      decide
    simp only [if_neg hv]
    simp [csprojLoop, printIfErr, Println]
  · intro csprojFiles hget hopen hrel hv
    apply hmain _ (csprojLoop env sourcePath csprojFiles ([], ConfigInfo.zero)).2
    unfold DetectDotNETCore
    rw [hget]
    simp only [printIfErr, if_neg hv]
    rw [csprojLoop_quiet env sourcePath csprojFiles _ hopen hrel]

/-- The amended C6 on a tree without a `net5.0` descriptor and on a missing root. -/
theorem main_failure_witness :
    main envTwo ["detect".toList, rootDir] = { stdout := [], status := .ok 1 }
    ∧ main envTwo ["detect".toList, "/nonexistent".toList]
      = { stdout := "stat /nonexistent: no such file or directory\n".toList, status := .ok 1 }
    ∧ main envBroken ["detect".toList, rootDir] = { stdout := [], status := .ok 1 } :=
  ⟨(main_failure envTwo "detect".toList rootDir []).1 [] cfgTwo (by decide),
   (main_failure envTwo "detect".toList "/nonexistent".toList []).2.1
      (noSuchFile "stat".toList "/nonexistent".toList) rfl rfl,
   (main_failure envBroken "detect".toList rootDir []).2.2 ["/src/MyApp.csproj".toList]
      (by decide)
      (fun f hf => by rw [List.mem_singleton.mp hf]; exact ⟨{ data := csprojBroken }, rfl⟩)
      (by decide) (by decide)⟩

/-- The part of C9 that holds: for an existing root whose entries are all readable and a
duplicate-free list of extensions, `GetFilesByExt` returns, without error, the walk-order
sequence of the paths of the non-directory entries whose extension is one of the requested
ones; for a root of which `os.Stat` reports a not-exist error it returns the error and an
empty result.  The extension is the suffix starting at the last dot of the final path
element, and is empty when that element has no dot. -/
theorem GetFilesByExt_selects (env : Env) (inputPath : GoString) (exts : List GoString) :
    (∀ info, env.Stat inputPath = .ok info → (∀ e ∈ env.Walk inputPath, e.err = none) →
      exts.Nodup →
      GetFilesByExt env inputPath exts
        = .ok (((env.Walk inputPath).filter
            (fun e => !e.isDir && decide (Ext e.path ∈ exts))).map (fun e => e.path), none))
    ∧ (∀ err, env.Stat inputPath = .error err → err.notExist = true →
      GetFilesByExt env inputPath exts = .ok ([], some err))
    ∧ (∀ front e : GoString, (∀ c ∈ e, c ≠ '.') → (∀ c ∈ e, c ≠ '/') →
      Ext (front ++ '.' :: e) = '.' :: e)
    ∧ (∀ front name : GoString, (front = [] ∨ ∃ d, front = d ++ ['/']) →
      (∀ c ∈ name, c ≠ '.') → (∀ c ∈ name, c ≠ '/') → Ext (front ++ name) = []) := by
  refine ⟨?_, ?_, Ext_last_dot, Ext_no_dot⟩
  · intro info hstat hread hexts
    unfold GetFilesByExt
    rw [hstat]
    simp only [filepathWalk_readable inputPath exts hexts _ hread, List.nil_append]
    rfl
  · intro err hstat hne
    unfold GetFilesByExt
    rw [hstat]
    simp [hne]

/-- The enumeration on the example tree, on a missing root, and two extensions. -/
theorem GetFilesByExt_selects_witness :
    GetFilesByExt envMyApp rootDir [csProj] = .ok (["/src/MyApp.csproj".toList], none)
    ∧ GetFilesByExt envMyApp "/nonexistent".toList [csProj]
        = .ok ([], some (noSuchFile "stat".toList "/nonexistent".toList))
    ∧ Ext "/src/Properties/launchSettings.json".toList = ".json".toList
    ∧ Ext "/src.d/Makefile".toList = [] :=
  ⟨(GetFilesByExt_selects envMyApp rootDir [csProj]).1 { IsDir := true } rfl (by decide)
      (by decide),
   (GetFilesByExt_selects envMyApp "/nonexistent".toList [csProj]).2.1 _ rfl rfl,
   (GetFilesByExt_selects envMyApp [] []).2.2.1 "/src/Properties/launchSettings".toList
      "json".toList (by decide) (by decide),
   (GetFilesByExt_selects envMyApp [] []).2.2.2 "/src.d/".toList "Makefile".toList
      (Or.inr ⟨"/src.d".toList, rfl⟩) (by decide) (by decide)⟩


/-- C9 fails on the code: the root `/src/MyApp.csproj/sub` lies below a regular file and
does not exist, `os.Stat` reports "not a directory", of which `os.IsNotExist` is false, and
`GetFilesByExt` panics on the nil `info` instead of returning an error and an empty
result; the whole program ends in that panic. -/
theorem root_below_file_panics :
    envBelowFile.Stat belowFile = .error notADirectory
    ∧ notADirectory.notExist = false
    ∧ GetFilesByExt envBelowFile belowFile [csProj] = .error Fault.nilDereference
    ∧ GetFilesByExt envBelowFile belowFile [jsonExt] = .error Fault.nilDereference
    ∧ main envBelowFile ["detect".toList, belowFile]
        = { stdout := [], status := .error Fault.nilDereference } := by
  decide

end CoreApp
